import Mathlib

/-!
Shallow embedding of the option-symbology library (ISIN validation and
option-contract symbol parsing/serialization) and proofs about its
specification claims.

Strings are modelled as `List Char`.  The Rust `f64` strike price field
is modelled as the exact rational value of the stored double.  The one
arithmetic step the claims exercise on it, the multiplication by one
thousand inside the OSI serializer, is modelled faithfully: IEEE-754
multiplication returns the correctly rounded exact product, so the model
forms the exact rational product and applies `fl64`, the rounding to the
nearest binary64 value.  This matters: a strike such as 1.001 is not
representable, the stored double times one thousand rounds to
1000.9999999999999, and the serializer then emits a string the OSI
grammar rejects (see the C3 counterexample).
The backtracking regex engine is embedded as a deterministic matcher
specialised to the three fixed patterns of the source; the fixed patterns
always compile, so the source's `RegexError` branches are unreachable and
are not modelled.  A Rust panic (a failing `unwrap`) is modelled by the
explicit `RunResult.panic` outcome.
-/

namespace OptionSymbology

/-- ASCII decimal digit, the regex class backslash-d on these inputs. -/
def isDigitChar (c : Char) : Bool := '0' ≤ c && c ≤ '9'

/-- ASCII uppercase letter. -/
def isUpperChar (c : Char) : Bool := 'A' ≤ c && c ≤ 'Z'

/-- ASCII lowercase letter. -/
def isLowerChar (c : Char) : Bool := 'a' ≤ c && c ≤ 'z'

/-- Word character, the regex class backslash-w (ASCII fragment). -/
def isWordChar (c : Char) : Bool :=
  isUpperChar c || isLowerChar c || isDigitChar c || c == '_'

/-- Whitespace, the regex class backslash-s (ASCII fragment). -/
def isSpaceChar (c : Char) : Bool :=
  c == ' ' || c == '\t' || c == '\n' || c == '\r' || c == '\x0b' || c == '\x0c'

/-- Numeric value of a decimal digit character. -/
def digitVal (c : Char) : Nat := c.toNat - 48

/-- The decimal digit character for a value below ten (the source adds the
value to the byte of the zero character). -/
def digitChar (n : Nat) : Char := Char.ofNat (48 + n)

/-- Value of a digit string read most-significant first. -/
def natVal (l : List Char) : Nat :=
  l.foldl (fun a c => 10 * a + digitVal c) 0

/-- Models Rust integer parsing on the digit-only substrings captured by the
grammars (no sign is possible there, and at most eight digits keeps the value
inside the i32 range). -/
def parseNat (l : List Char) : Option Nat :=
  if !l.isEmpty && l.all isDigitChar then some (natVal l) else none

/-- Decimal digit string, most significant digit first, with a fuel bound
on the recursion depth (the value itself always suffices as fuel). -/
def natDecimalAux : Nat → Nat → List Char
  | 0, _ => []
  | fuel + 1, n =>
    if n < 10 then [digitChar n]
    else natDecimalAux fuel (n / 10) ++ [digitChar (n % 10)]

/-- Decimal digit string of a natural number, most significant digit first;
models the Rust Display output of a nonnegative integer. -/
def natDecimal (n : Nat) : List Char := natDecimalAux (n + 1) n

/-- Decimal rendering of an integer; models the Rust Display output of i32. -/
def intDecimal (i : Int) : List Char :=
  if i < 0 then '-' :: natDecimal i.natAbs else natDecimal i.toNat

/-- Left padding with a fill character up to a width, as the Rust format
specifier with a fill and right alignment applies to a Display output. -/
def padLeft (w : Nat) (fill : Char) (l : List Char) : List Char :=
  List.replicate (w - l.length) fill ++ l

/-- Right padding (left justification) up to a width. -/
def padRight (w : Nat) (fill : Char) (l : List Char) : List Char :=
  l ++ List.replicate (w - l.length) fill

/-- The closed error enumeration of the library. -/
inductive Error where
  | NoResult
  | YearOutOfRange
  | MonthOutOfRange
  | DayOutOfRange
  | ChecksumError
  | RegexError : List Char → Error
deriving DecidableEq

/-- Result of running a fallible routine of the library; `panic` models a
Rust panic (a failing `unwrap` or an explicit panic branch). -/
inductive RunResult (α : Type) where
  | ok : α → RunResult α
  | err : Error → RunResult α
  | panic : RunResult α
deriving DecidableEq

/-! ### ISIN module -/

/-- One character expanded to its decimal digits: a digit character maps to
itself, an uppercase letter to its alphabet position plus ten (two digits,
most significant first), anything else contributes nothing. -/
def convert_char_as_byte_to_numbers (c : Char) : List Nat :=
  if isDigitChar c then [digitVal c]
  else if isUpperChar c then
    [(c.toNat - 65 + 10) / 10, (c.toNat - 65 + 10) % 10]
  else []

/-- Expansion of a whole string to decimal digits. -/
def replace_chars_to_numbers (s : List Char) : List Nat :=
  (s.map convert_char_as_byte_to_numbers).flatten

/-- Elements at indices 0, 2, 4, ...; models the step-by-two iterator
adapter of the source. -/
def everyOther {α : Type} : List α → List α
  | [] => []
  | [x] => [x]
  | x :: _ :: rest => x :: everyOther rest

/-- The flat-map step of the source: a two-digit value is replaced by its
two digits, a one-digit value is kept. -/
def splitTens (f : Nat) : List Nat :=
  if f > 9 then [f / 10, f % 10] else [f]

/-- The doubled sum of the source: every second digit of the reversed digit
list starting at the second one, doubled, two-digit doublings split. -/
def sum_odd (digits : List Nat) : Nat :=
  (((everyOther (digits.reverse.drop 1)).map (fun f => f * 2)).map splitTens).flatten.sum

/-- The plain sum of the source: every second digit of the reversed digit
list starting at the third one. -/
def sum_even (digits : List Nat) : Nat :=
  (everyOther (digits.reverse.drop 2)).sum

/-- The checksum digit computed by the source over the full input string. -/
def compute_checksum (s : List Char) : Nat :=
  let digits := replace_chars_to_numbers s
  (10 - (sum_even digits + sum_odd digits) % 10) % 10

/-- The source compares the last byte of the string against the computed
checksum digit; its only caller runs it after the twelve-character grammar
match, so the unwrap of the last byte cannot fail there. -/
def verify_isin (s : List Char) : Bool :=
  match s.getLast? with
  | some c => c == digitChar (compute_checksum s)
  | none => false

/-- The anchored ISIN grammar: two uppercase letters, nine alphanumerics,
one decimal digit. -/
def isinGrammar (s : List Char) : Bool :=
  s.length == 12 && (s.take 2).all isUpperChar
    && ((s.drop 2).take 9).all (fun c => isUpperChar c || isDigitChar c)
    && (s.drop 11).all isDigitChar

/-- A validated ISIN stores the raw accepted string. -/
structure ISIN where
  isin : List Char
deriving DecidableEq

/-- Grammar match, then checksum verification. -/
def ISIN.parse_isin (s : List Char) : RunResult ISIN :=
  if isinGrammar s then
    if verify_isin s then .ok ⟨s⟩ else .err .ChecksumError
  else .err .NoResult

def ISIN.get_county_code (x : ISIN) : List Char := x.isin.take 2

def ISIN.get_identifier (x : ISIN) : List Char := (x.isin.drop 2).take 9

def ISIN.get_checksum (x : ISIN) : List Char := x.isin.drop 11

def ISIN.get_isin (x : ISIN) : List Char := x.isin

mutual

/-- Following the specification text, over an already reversed digit list:
the digit at position 1 (and then 3, 5, ...) is doubled, a two-digit
doubling contributing the sum of its two digits. -/
def specLuhnOdd : List Nat → Nat
  | [] => 0
  | d :: rest =>
      (if 2 * d > 9 then 2 * d / 10 + 2 * d % 10 else 2 * d) + specLuhnEven rest

/-- Following the specification text, over an already reversed digit list:
the digit at position 2 (and then 4, 6, ...) is taken as-is. -/
def specLuhnEven : List Nat → Nat
  | [] => 0
  | d :: rest => d + specLuhnOdd rest

end

/-- Following the specification text: expand the characters to decimal
digits, number the digits from the end (rightmost digit at position 1),
double the digits at odd positions summing the two digits of any two-digit
doubling, take even positions as-is, sum all values and return ten minus
the sum modulo ten, modulo ten. -/
def specChecksumDigit (s : List Char) : Nat :=
  (10 - specLuhnOdd (replace_chars_to_numbers s).reverse % 10) % 10

/-! ### Options module: data model -/

/-- Call or Put. -/
inductive ContractType where
  | Call
  | Put
deriving DecidableEq

/-- The one-letter Display output of a contract type. -/
def ContractType.display : ContractType → Char
  | .Call => 'C'
  | .Put => 'P'

/-- A complete option contract: ticker symbol, four-digit expiration year,
expiration month and day, strike price, contract type.  The strike is an
exact rational standing for the f64 of the source (see the module comment). -/
structure OptionData where
  symbol : List Char
  expiration_year : Int
  expiration_month : Int
  expiration_day : Int
  strike_price : ℚ
  contract_type : ContractType
deriving DecidableEq

/-! ### Options module: the OSI matcher

The anchored OSI pattern is a length-16-to-21 lookahead, then one to six
word characters (symbol), up to five whitespace characters, two digits
(year), a month field, a day field, a contract letter and eight digits
(price).  After the symbol and padding the pattern is a fixed fifteen
characters wide and anchored at the end, so for a given symbol length the
padding width is forced by the total length; the backtracking engine tries
the longest symbol first, which the `osiTry` loop reproduces. -/

/-- The two-character month field alternation: a zero then a digit, or a
one then zero, one or two. -/
def isMonthField : List Char → Bool
  | [a, b] => (a == '0' && isDigitChar b)
      || (a == '1' && (b == '0' || b == '1' || b == '2'))
  | _ => false

/-- The two-character day field alternation: 01 to 09, 10 to 29, 30 or 31. -/
def isDayField : List Char → Bool
  | [a, b] => (a == '0' && ('1' ≤ b && b ≤ '9'))
      || ((a == '1' || a == '2') && isDigitChar b)
      || (a == '3' && (b == '0' || b == '1'))
  | _ => false

/-- The contract letter alternation, both cases. -/
def isContractChar (c : Char) : Bool :=
  c == 'C' || c == 'P' || c == 'c' || c == 'p'

/-- The named capture groups of the OSI pattern. -/
structure OsiCaptures where
  symbol : List Char
  year : List Char
  month : List Char
  day : List Char
  contract : Char
  price : List Char
deriving DecidableEq

/-- One backtracking attempt at a fixed symbol width `a`: the padding width
is forced to the total length minus `a` minus the fixed fifteen-character
tail, and every field class is checked at its position. -/
def osiAttempt (a : Nat) (s : List Char) : Option OsiCaptures :=
  if a + 15 ≤ s.length ∧ s.length ≤ a + 20 then
    let sym := s.take a
    let sp := (s.drop a).take (s.length - 15 - a)
    let tl := s.drop (s.length - 15)
    match (tl.drop 6).take 1 with
    | [k] =>
      if sym.all isWordChar && sp.all isSpaceChar
          && (tl.take 2).all isDigitChar && isMonthField ((tl.drop 2).take 2)
          && isDayField ((tl.drop 4).take 2) && isContractChar k
          && (tl.drop 7).all isDigitChar then
        some ⟨sym, tl.take 2, (tl.drop 2).take 2, (tl.drop 4).take 2, k, tl.drop 7⟩
      else none
    | _ => none
  else none

/-- Greedy backtracking over the symbol width, longest first. -/
def osiTry : Nat → List Char → Option OsiCaptures
  | 0, _ => none
  | a + 1, s =>
    match osiAttempt (a + 1) s with
    | some c => some c
    | none => osiTry a s

/-- The full OSI match: the length lookahead (dot matches anything except a
newline), then the greedy body. -/
def osiCaptures (s : List Char) : Option OsiCaptures :=
  if (16 ≤ s.length ∧ s.length ≤ 21) ∧ s.all (fun c => !(c == '\n')) then
    osiTry 6 s
  else none

/-- The contract-letter decode of the source: P or p is a Put, C or c a
Call, anything else falls to the panic branch. -/
def contractOfChar (c : Char) : Option ContractType :=
  if c == 'P' || c == 'p' then some .Put
  else if c == 'C' || c == 'c' then some .Call
  else none

/-- Parse an OSI-compliant string.  The year is two thousand plus the
two-digit capture, the price the eight-digit capture divided by one
thousand.  The unwraps of the source are the panic outcome; the capture
classes make them unreachable. -/
def OptionData.parse_osi (s : List Char) : RunResult OptionData :=
  match osiCaptures s with
  | none => .err .NoResult
  | some c =>
    match parseNat c.year, parseNat c.month, parseNat c.day, parseNat c.price with
    | some y, some mo, some d, some p =>
      match contractOfChar c.contract with
      | some ct =>
        .ok { symbol := c.symbol
              expiration_year := 2000 + (y : Int)
              expiration_month := (mo : Int)
              expiration_day := (d : Int)
              strike_price := (p : ℚ) / 1000
              contract_type := ct }
      | none => .panic
    | _, _, _, _ => .panic

/-! ### Options module: the activity-statement matcher

The pattern is a symbol of one to six word characters, one whitespace, a
two-character day field, three word characters (month), two digits (year),
one whitespace, a decimal price, one whitespace and a contract letter,
anchored on both sides.  Word and whitespace classes are disjoint and
everything after the symbol is position-forced, so the match is
deterministic: the symbol is the leading word-character run. -/

/-- Length of the leading word-character run. -/
def wordRunLength : List Char → Nat
  | [] => 0
  | c :: rest => if isWordChar c then wordRunLength rest + 1 else 0

/-- The decimal price alternation (digits, an optional dot, digits):
nonempty, only digits and at most one dot, ending in a digit. -/
def isPriceField (l : List Char) : Bool :=
  !l.isEmpty && l.all (fun c => isDigitChar c || c == '.')
    && l.count '.' ≤ 1
    && (match l.getLast? with | some c => isDigitChar c | none => false)

/-- The named capture groups of the activity-statement pattern. -/
structure IbCaptures where
  symbol : List Char
  day : List Char
  month : List Char
  year : List Char
  price : List Char
  contract : Char
deriving DecidableEq

/-- The full activity-statement match. -/
def ibCaptures (s : List Char) : Option IbCaptures :=
  let w := wordRunLength s
  if 1 ≤ w ∧ w ≤ 6 then
    match s.drop w with
    | sp1 :: r1 =>
      if isSpaceChar sp1 then
        match r1.drop 7 with
        | sp2 :: r2 =>
          if isSpaceChar sp2 ∧ 3 ≤ r2.length then
            match r2.drop (r2.length - 2) with
            | [sp3, k] =>
              if isSpaceChar sp3 && isDayField (r1.take 2)
                  && ((r1.drop 2).take 3).all isWordChar
                  && ((r1.drop 5).take 2).all isDigitChar
                  && isPriceField (r2.take (r2.length - 2))
                  && isContractChar k then
                some ⟨s.take w, r1.take 2, (r1.drop 2).take 3, (r1.drop 5).take 2,
                      r2.take (r2.length - 2), k⟩
              else none
            | _ => none
          else none
        | _ => none
      else none
    | _ => none
  else none

/-- The fixed month-abbreviation table with the ordinal of each variant. -/
def MONTHS3 : List (List Char × Nat) :=
  [(String.toList "JAN", 1), (String.toList "FEB", 2), (String.toList "MAR", 3),
   (String.toList "APR", 4), (String.toList "MAY", 5), (String.toList "JUN", 6),
   (String.toList "JUL", 7), (String.toList "AUG", 8), (String.toList "SEP", 9),
   (String.toList "OCT", 10), (String.toList "NOV", 11), (String.toList "DEC", 12)]

/-- The case-sensitive month lookup derived for the month enumeration. -/
def month3FromStr (l : List Char) : Option Nat :=
  (MONTHS3.find? (fun p => p.1 == l)).map (fun p => p.2)

/-- Exact rational value of a decimal literal capture (digits with an
optional dot); models the float parse of the source, which is exact on the
values the claims exercise. -/
def parseRatDecimal (l : List Char) : Option ℚ :=
  let intPart := l.takeWhile (fun c => !(c == '.'))
  let rest := l.dropWhile (fun c => !(c == '.'))
  match rest with
  | [] => (parseNat l).map (fun n => (n : ℚ))
  | _ :: frac =>
    if intPart.all isDigitChar && (!frac.isEmpty && frac.all isDigitChar) then
      some ((natVal intPart : ℚ) + (natVal frac : ℚ) / 10 ^ frac.length)
    else none

/-- Parse a broker activity-statement symbol.  The source unwraps the
result of the month lookup, so an unknown three-letter month panics: the
panic outcome is reachable here. -/
def OptionData.parse_ib_activity_statement_trades_symbol
    (s : List Char) : RunResult OptionData :=
  match ibCaptures s with
  | none => .err .NoResult
  | some c =>
    match month3FromStr c.month with
    | none => .panic
    | some mo =>
      match parseNat c.year, parseNat c.day, parseRatDecimal c.price,
          contractOfChar c.contract with
      | some y, some d, some p, some ct =>
        .ok { symbol := c.symbol
              expiration_year := 2000 + (y : Int)
              expiration_month := (mo : Int)
              expiration_day := (d : Int)
              strike_price := p
              contract_type := ct }
      | _, _, _, _ => .panic

/-! ### Options module: serializers -/

/-- Fractional decimal digits of a value in the half-open unit interval,
up to a fuel bound (the claims only exercise terminating expansions). -/
def fracDigitsAux : Nat → ℚ → List Char
  | 0, _ => []
  | fuel + 1, r =>
    if r = 0 then []
    else digitChar (⌊r * 10⌋).toNat :: fracDigitsAux fuel (r * 10 - ⌊r * 10⌋)

/-- Decimal Display of a nonnegative float value. -/
def displayFloatPos (q : ℚ) : List Char :=
  natDecimal (⌊q⌋).toNat ++ '.' :: fracDigitsAux 64 (q - ⌊q⌋)

/-- Decimal Display of a float value.  An integral value prints with no
decimal point, exactly as the Rust Display of f64 does.  A non-integral
value prints its exact decimal expansion (up to 64 fractional digits),
where Rust prints the shortest decimal that rounds back to the value;
both renderings start with the integer part, a decimal point and at
least the leading fractional digits, which is all the claims depend on
(such a field can never match the eight-digit price group). -/
def displayFloat (q : ℚ) : List Char :=
  if q.den = 1 then intDecimal q.num
  else if q < 0 then '-' :: displayFloatPos (-q)
  else displayFloatPos q

/-- Round to the nearest integer, ties to even, as the Rust fixed-precision
float formatting does on the exact value. -/
def roundHalfEven (q : ℚ) : Int :=
  if q - ⌊q⌋ < 1 / 2 then ⌊q⌋
  else if q - ⌊q⌋ > 1 / 2 then ⌊q⌋ + 1
  else if ⌊q⌋ % 2 = 0 then ⌊q⌋ else ⌊q⌋ + 1

/-- The positive case of the binary64 rounding: scale into the 53-bit
mantissa range by the power of two given by the base-two logarithm, round
to an integer mantissa (ties to even) and scale back. -/
def fl64Pos (q : ℚ) : ℚ :=
  (roundHalfEven (q * 2 ^ ((52 : Int) - Int.log 2 q)) : ℚ)
    * 2 ^ (Int.log 2 q - (52 : Int))

/-- Rounding of an exact rational to the nearest IEEE-754 binary64 value
(ties to even), modelled for the normal range, which covers every value
the claims exercise.  The source's f64 division and multiplication are
correctly rounded, so each one is this rounding applied to the exact
rational result. -/
def fl64 (q : ℚ) : ℚ :=
  if q = 0 then 0
  else if q < 0 then -fl64Pos (-q)
  else fl64Pos q

/-- Digits of a nonnegative value rounded to two decimal places. -/
def fmtFixed2Core (n : Nat) : List Char :=
  natDecimal (n / 100) ++ '.' :: padLeft 2 '0' (natDecimal (n % 100))

/-- A float value formatted with exactly two decimal places. -/
def fmtFixed2 (q : ℚ) : List Char :=
  let n := roundHalfEven (q * 100)
  if n < 0 then '-' :: fmtFixed2Core (-n).toNat else fmtFixed2Core n.toNat

/-- Serialize to the OSI format: the symbol left-justified to width six
with spaces, the year minus two thousand, the month and the day each
zero-padded to two digits, the contract letter, and the strike price times
one thousand zero-padded to eight characters.  The source multiplies the
strike by one thousand in f64, so the exact rational product is rounded
to binary64 before it is Display-printed. -/
def OptionData.to_osi_string (x : OptionData) : List Char :=
  padRight 6 ' ' x.symbol
    ++ padLeft 2 '0' (intDecimal (x.expiration_year - 2000))
    ++ padLeft 2 '0' (intDecimal x.expiration_month)
    ++ padLeft 2 '0' (intDecimal x.expiration_day)
    ++ [x.contract_type.display]
    ++ padLeft 8 '0' (displayFloat (fl64 (x.strike_price * 1000)))

/-- The OSI serializer without the symbol padding. -/
def OptionData.to_osi_string_no_symbol_padding (x : OptionData) : List Char :=
  x.symbol
    ++ padLeft 2 '0' (intDecimal (x.expiration_year - 2000))
    ++ padLeft 2 '0' (intDecimal x.expiration_month)
    ++ padLeft 2 '0' (intDecimal x.expiration_day)
    ++ [x.contract_type.display]
    ++ padLeft 8 '0' (displayFloat (fl64 (x.strike_price * 1000)))

/-- Serialize to the Schwab format: symbol, month slash day slash year with
the month and day zero-padded to two digits and the year to four, the
strike price with exactly two decimal places, the contract letter, all
separated by single spaces. -/
def OptionData.to_schwab_string (x : OptionData) : List Char :=
  x.symbol
    ++ ' ' :: padLeft 2 '0' (intDecimal x.expiration_month)
    ++ '/' :: padLeft 2 '0' (intDecimal x.expiration_day)
    ++ '/' :: padLeft 4 '0' (intDecimal x.expiration_year)
    ++ ' ' :: fmtFixed2 x.strike_price
    ++ ' ' :: [x.contract_type.display]

/-! ### Options module: calendar helpers -/

/-- A leap year is every fourth year, but not every hundredth, still every
four-hundredth. -/
def is_leap_year (year : Int) : Bool :=
  (year % 4 == 0 && !(year % 100 == 0)) || year % 400 == 0

/-- The months with thirty-one days. -/
def MONTH_WITH_31_DAYS : List Int := [1, 3, 5, 7, 8, 10, 12]

/-- Whether the day of month fits the month and year. -/
def is_day_in_month_and_year (year month day : Int) : Bool :=
  decide (0 < day)
    && ((month == 2 && (decide (day ≤ 28) || (day == 29 && is_leap_year year)))
      || (!(month == 2)
        && (decide (day ≤ 30) || (day == 31 && MONTH_WITH_31_DAYS.contains month))))

/-- The validating setter of the source (it performs no mutation; the self
argument is unused and dropped here).  The year guard applies the Rust
bitwise integer negation, so it compares minus the year minus one against
two thousand. -/
def OptionData.set_ymd (year month day : Int) : RunResult Unit :=
  if -year - 1 > 2000 then .err .YearOutOfRange
  else if !(decide (month ≥ 1) && decide (month ≤ 12)) then .err .MonthOutOfRange
  else if !is_day_in_month_and_year year month day then .err .DayOutOfRange
  else .ok ()

/-- The Apple call of the worked examples: strike 470, expiring on the
first of November 2013. -/
def appleCall470 : OptionData :=
  { symbol := String.toList "AAPL"
    expiration_year := 2013
    expiration_month := 11
    expiration_day := 1
    strike_price := 470
    contract_type := .Call }

/-- The same contract with the nominal strike 1.001: the stored double is
the binary64 value nearest to the exact thousandth. -/
def badStrikeCall : OptionData :=
  { symbol := String.toList "AAPL"
    expiration_year := 2013
    expiration_month := 11
    expiration_day := 1
    strike_price := fl64 ((1001 : ℚ) / 1000)
    contract_type := .Call }

/-! ### Helper lemmas: digits and decimal strings -/

theorem isDigitChar_digitChar : ∀ d, d < 10 → isDigitChar (digitChar d) = true := by
  decide

theorem digitVal_digitChar : ∀ d, d < 10 → digitVal (digitChar d) = d := by
  decide

theorem natDecimalAux_congr :
    ∀ f1 f2 n : Nat, n < f1 → n < f2 → natDecimalAux f1 n = natDecimalAux f2 n := by
  intro f1
  induction f1 with
  | zero => omega
  | succ f1 ih =>
    intro f2 n h1 h2
    match f2, h2 with
    | g + 1, h2 =>
      show natDecimalAux (f1 + 1) n = natDecimalAux (g + 1) n
      by_cases h : n < 10
      · simp [natDecimalAux, h]
      · simp only [natDecimalAux, if_neg h]
        have hdiv : n / 10 < n := Nat.div_lt_self (by omega) (by omega)
        rw [ih g (n / 10) (by omega) (by omega)]

theorem natDecimal_lt {n : Nat} (h : n < 10) : natDecimal n = [digitChar n] := by
  simp [natDecimal, natDecimalAux, h]

theorem natDecimal_ge {n : Nat} (h : 10 ≤ n) :
    natDecimal n = natDecimal (n / 10) ++ [digitChar (n % 10)] := by
  have hdiv : n / 10 < n := Nat.div_lt_self (by omega) (by omega)
  show natDecimalAux (n + 1) n = natDecimalAux (n / 10 + 1) (n / 10) ++ _
  rw [show natDecimalAux (n + 1) n
      = natDecimalAux n (n / 10) ++ [digitChar (n % 10)] from by
    simp [natDecimalAux, Nat.not_lt.mpr h]]
  rw [natDecimalAux_congr n (n / 10 + 1) (n / 10) (by omega) (by omega)]

theorem natDecimal_ne_nil (n : Nat) : natDecimal n ≠ [] := by
  by_cases h : n < 10
  · rw [natDecimal_lt h]; simp
  · rw [natDecimal_ge (by omega)]; simp

theorem natDecimal_all_digit (n : Nat) : (natDecimal n).all isDigitChar = true := by
  induction n using Nat.strong_induction_on with
  | _ n ih =>
    by_cases h : n < 10
    · rw [natDecimal_lt h]
      simp [isDigitChar_digitChar n h]
    · rw [natDecimal_ge (by omega), List.all_append]
      have hdiv : n / 10 < n := Nat.div_lt_self (by omega) (by omega)
      simp [ih (n / 10) hdiv, isDigitChar_digitChar (n % 10) (by omega)]

theorem natDecimal_length_le :
    ∀ k n : Nat, 1 ≤ k → n < 10 ^ k → (natDecimal n).length ≤ k := by
  intro k
  induction k with
  | zero => omega
  | succ k ih =>
    intro n _ hn
    by_cases h : n < 10
    · rw [natDecimal_lt h]; simp
    · have hk : 1 ≤ k := by
        by_contra hk
        have : k = 0 := by omega
        subst this
        simp [pow_succ] at hn
        omega
      rw [natDecimal_ge (by omega)]
      have hdiv : n / 10 < 10 ^ k := by
        rw [Nat.div_lt_iff_lt_mul (by omega)]
        calc n < 10 ^ (k + 1) := hn
        _ = 10 ^ k * 10 := by ring
      have := ih (n / 10) hk hdiv
      simp only [List.length_append, List.length_cons, List.length_nil]
      omega

theorem natVal_natDecimal (n : Nat) : natVal (natDecimal n) = n := by
  induction n using Nat.strong_induction_on with
  | _ n ih =>
    by_cases h : n < 10
    · rw [natDecimal_lt h]
      show 10 * 0 + digitVal (digitChar n) = n
      rw [digitVal_digitChar n h]
      omega
    · have hdiv : n / 10 < n := Nat.div_lt_self (by omega) (by omega)
      rw [natDecimal_ge (by omega)]
      show List.foldl _ 0 _ = n
      rw [List.foldl_append]
      have hrec : List.foldl (fun a c => 10 * a + digitVal c) 0 (natDecimal (n / 10))
          = n / 10 := ih (n / 10) hdiv
      rw [hrec]
      show 10 * (n / 10) + digitVal (digitChar (n % 10)) = n
      rw [digitVal_digitChar (n % 10) (by omega)]
      omega

theorem natVal_replicate_zero (j : Nat) (l : List Char) :
    natVal (List.replicate j '0' ++ l) = natVal l := by
  induction j with
  | zero => simp
  | succ j ih =>
    show List.foldl _ 0 _ = _
    rw [List.replicate_succ, List.cons_append, List.foldl_cons]
    have h0 : (10 * 0 + digitVal '0') = 0 := by decide
    rw [h0]
    exact ih

theorem padLeft_length {w : Nat} {f : Char} {l : List Char} (h : l.length ≤ w) :
    (padLeft w f l).length = w := by
  simp [padLeft]
  omega

theorem all_replicate_of (p : Char → Bool) (f : Char) (m : Nat) (h : p f = true) :
    (List.replicate m f).all p = true := by
  induction m with
  | zero => simp
  | succ m ih => rw [List.replicate_succ, List.all_cons, h, ih]; rfl

theorem all_mono {p q : Char → Bool} (h : ∀ c, p c = true → q c = true)
    {l : List Char} (hl : l.all p = true) : l.all q = true := by
  rw [List.all_eq_true] at hl ⊢
  exact fun c hc => h c (hl c hc)

theorem padLeft_zero_all_digit {w : Nat} {l : List Char}
    (h : l.all isDigitChar = true) : (padLeft w '0' l).all isDigitChar = true := by
  rw [padLeft, List.all_append, all_replicate_of _ _ _ (by decide), h]
  rfl

theorem pad2_natDecimal {n : Nat} (h : n < 100) :
    padLeft 2 '0' (natDecimal n) = [digitChar (n / 10), digitChar (n % 10)] := by
  by_cases h10 : n < 10
  · rw [natDecimal_lt h10]
    show List.replicate 1 '0' ++ [digitChar n] = _
    have h1 : n / 10 = 0 := by omega
    have h2 : n % 10 = n := by omega
    rw [h1, h2]
    rfl
  · rw [natDecimal_ge (by omega), natDecimal_lt (by omega : n / 10 < 10)]
    show List.replicate (2 - 2) '0' ++ _ = _
    rfl

theorem parseNat_of_digits {l : List Char} (h1 : l ≠ [])
    (h2 : l.all isDigitChar = true) : parseNat l = some (natVal l) := by
  have : l.isEmpty = false := by
    cases l with
    | nil => exact absurd rfl h1
    | cons c t => rfl
  simp [parseNat, this, h2]

theorem parseNat_padLeft_natDecimal (w n : Nat) :
    parseNat (padLeft w '0' (natDecimal n)) = some n := by
  rw [parseNat_of_digits, padLeft, natVal_replicate_zero, natVal_natDecimal]
  · rw [padLeft]
    intro hcon
    have hlen := congrArg List.length hcon
    rw [List.length_append, List.length_replicate, List.length_nil] at hlen
    have hne : (natDecimal n).length ≠ 0 := by
      simpa [List.length_eq_zero] using natDecimal_ne_nil n
    omega
  · exact padLeft_zero_all_digit (natDecimal_all_digit n)

theorem intDecimal_of_nonneg {i : Int} (h : 0 ≤ i) :
    intDecimal i = natDecimal i.toNat := by
  rw [intDecimal, if_neg (by omega)]

theorem displayFloat_natCast (n : Nat) : displayFloat (n : ℚ) = natDecimal n := by
  rw [displayFloat, if_pos (Rat.den_natCast n), Rat.num_natCast,
    intDecimal_of_nonneg (by omega), Int.toNat_natCast]

theorem roundHalfEven_natCast (n : Nat) : roundHalfEven (n : ℚ) = (n : Int) := by
  have hf : ⌊(n : ℚ)⌋ = (n : Int) := Int.floor_natCast n
  rw [roundHalfEven, hf, if_pos]
  push_cast
  norm_num

theorem fmtFixed2_natCast (n : Nat) : fmtFixed2 (n : ℚ) = fmtFixed2Core (100 * n) := by
  have h100 : (n : ℚ) * 100 = ((100 * n : Nat) : ℚ) := by push_cast; ring
  rw [fmtFixed2, h100, roundHalfEven_natCast, if_neg (by omega), Int.toNat_natCast]

/-! ### Helper lemmas: binary64 rounding -/

theorem int_log2_eq {q : ℚ} {z : Int} (h0 : 0 < q)
    (h1 : (2 : ℚ) ^ z ≤ q) (h2 : q < (2 : ℚ) ^ (z + 1)) : Int.log 2 q = z := by
  have ha : (2 : ℚ) ^ Int.log 2 q ≤ q := Int.zpow_log_le_self (by norm_num) h0
  have hb : q < (2 : ℚ) ^ (Int.log 2 q + 1) := Int.lt_zpow_succ_log_self (by norm_num) q
  by_contra hne
  rcases lt_or_gt_of_ne hne with hlt | hgt
  · have : q < q := lt_of_lt_of_le (lt_of_lt_of_le hb (by
      apply zpow_le_zpow_right₀ (by norm_num)
      omega)) h1
    exact absurd this (lt_irrefl q)
  · have : q < q := lt_of_lt_of_le (lt_of_lt_of_le h2 (by
      apply zpow_le_zpow_right₀ (by norm_num)
      omega)) ha
    exact absurd this (lt_irrefl q)

theorem fl64_pos_eval {q : ℚ} (h : 0 < q) :
    fl64 q = (roundHalfEven (q * 2 ^ ((52 : Int) - Int.log 2 q)) : ℚ)
      * 2 ^ (Int.log 2 q - (52 : Int)) := by
  rw [fl64, if_neg (ne_of_gt h), if_neg (not_lt.mpr (le_of_lt h)), fl64Pos]

/-- A rational with a 53-bit integer mantissa is a fixed point of the
rounding. -/
theorem fl64_fixpoint (m : Nat) (e : Int) (h1 : 2 ^ 52 ≤ m) (h2 : m < 2 ^ 53) :
    fl64 ((m : ℚ) * 2 ^ e) = (m : ℚ) * 2 ^ e := by
  have hq : (0 : ℚ) < (m : ℚ) * 2 ^ e := by
    apply mul_pos
    · exact_mod_cast Nat.lt_of_lt_of_le (by norm_num) h1
    · exact zpow_pos (by norm_num) e
  have hlog : Int.log 2 ((m : ℚ) * 2 ^ e) = 52 + e := by
    apply int_log2_eq hq
    · rw [zpow_add₀ (by norm_num : (2 : ℚ) ≠ 0)]
      apply mul_le_mul_of_nonneg_right _ (le_of_lt (zpow_pos (by norm_num) e))
      rw [show ((2 : ℚ) ^ (52 : Int)) = ((2 ^ 52 : Nat) : ℚ) from by push_cast; norm_num]
      exact_mod_cast h1
    · rw [show (52 : Int) + e + 1 = 53 + e from by ring,
        zpow_add₀ (by norm_num : (2 : ℚ) ≠ 0)]
      apply mul_lt_mul_of_pos_right _ (zpow_pos (by norm_num) e)
      rw [show ((2 : ℚ) ^ (53 : Int)) = ((2 ^ 53 : Nat) : ℚ) from by push_cast; norm_num]
      exact_mod_cast h2
  rw [fl64_pos_eval hq, hlog, show (52 : Int) - (52 + e) = -e from by ring,
    show (52 : Int) + e - 52 = e from by ring, mul_assoc,
    ← zpow_add₀ (by norm_num : (2 : ℚ) ≠ 0), add_neg_cancel, zpow_zero, mul_one,
    roundHalfEven_natCast]
  push_cast
  ring

/-- Every positive dyadic rational with at most fifty-three mantissa bits
is exactly representable: the rounding leaves it unchanged. -/
theorem fl64_dyadic (a : Nat) (e : Int) (h1 : 1 ≤ a) (h2 : a < 2 ^ 53) :
    fl64 ((a : ℚ) * 2 ^ e) = (a : ℚ) * 2 ^ e := by
  set t := 52 - Nat.log 2 a with ht
  have hlog1 : 2 ^ Nat.log 2 a ≤ a := Nat.pow_log_le_self 2 (by omega)
  have hlog2 : a < 2 ^ (Nat.log 2 a + 1) := Nat.lt_pow_succ_log_self (by norm_num) a
  have hlog52 : Nat.log 2 a ≤ 52 := by
    by_contra hcon
    have : 2 ^ 53 ≤ 2 ^ Nat.log 2 a := Nat.pow_le_pow_right (by norm_num) (by omega)
    omega
  have hm1 : 2 ^ 52 ≤ a * 2 ^ t := by
    calc 2 ^ 52 = 2 ^ Nat.log 2 a * 2 ^ t := by
          rw [← pow_add]
          congr 1
          omega
    _ ≤ a * 2 ^ t := Nat.mul_le_mul_right _ hlog1
  have hm2 : a * 2 ^ t < 2 ^ 53 := by
    calc a * 2 ^ t < 2 ^ (Nat.log 2 a + 1) * 2 ^ t := by
          apply Nat.mul_lt_mul_right (Nat.pos_pow_of_pos t (by norm_num)) |>.mpr hlog2
    _ = 2 ^ 53 := by
          rw [← pow_add]
          congr 1
          omega
  have hsplit : (a : ℚ) * 2 ^ e = ((a * 2 ^ t : Nat) : ℚ) * 2 ^ (e - t) := by
    push_cast
    rw [mul_assoc, ← zpow_natCast (2 : ℚ) t, ← zpow_add₀ (by norm_num : (2 : ℚ) ≠ 0)]
    congr 1
    ring
  rw [hsplit, fl64_fixpoint (a * 2 ^ t) (e - t) hm1 hm2]

/-- Integers below two to the fifty-three are exactly representable. -/
theorem fl64_natCast (n : Nat) (h : n < 2 ^ 53) : fl64 (n : ℚ) = (n : ℚ) := by
  by_cases h0 : n = 0
  · subst h0
    rw [Nat.cast_zero, fl64, if_pos rfl]
  · have := fl64_dyadic n 0 (by omega) h
    rwa [zpow_zero, mul_one] at this

/-- An exactly representable number of thousandths: when the count is a
multiple of one hundred twenty-five the quotient by one thousand is a
dyadic rational with a small mantissa. -/
theorem fl64_thousandth (n : Nat) (h125 : 125 ∣ n) (hn : n < 100000000) :
    fl64 ((n : ℚ) / 1000) = (n : ℚ) / 1000 := by
  obtain ⟨a, ha⟩ := h125
  subst ha
  by_cases h0 : a = 0
  · subst h0
    norm_num [fl64]
  · have hsplit : ((125 * a : Nat) : ℚ) / 1000 = (a : ℚ) * 2 ^ (-3 : Int) := by
      push_cast
      rw [show ((2 : ℚ) ^ (-3 : Int)) = 1 / 8 from by norm_num]
      ring
    rw [hsplit, fl64_dyadic a (-3) (by omega) (by norm_num; omega)]

/-- One unfolding of the fractional-digit expansion on a nonzero
remainder. -/
theorem fracDigitsAux_succ (fuel : Nat) {r : ℚ} (h : ¬ r = 0) :
    fracDigitsAux (fuel + 1) r
      = digitChar (⌊r * 10⌋).toNat :: fracDigitsAux fuel (r * 10 - ⌊r * 10⌋) := by
  rw [fracDigitsAux, if_neg h]

/-- Evaluation shape of the OSI parser on a successful match. -/
theorem parse_osi_eval {s : List Char} {c : OsiCaptures} {y mo d p : Nat}
    {ct : ContractType} (hc : osiCaptures s = some c)
    (hy : parseNat c.year = some y) (hmo : parseNat c.month = some mo)
    (hd : parseNat c.day = some d) (hp : parseNat c.price = some p)
    (hct : contractOfChar c.contract = some ct) :
    OptionData.parse_osi s
      = .ok { symbol := c.symbol
              expiration_year := 2000 + (y : Int)
              expiration_month := (mo : Int)
              expiration_day := (d : Int)
              strike_price := (p : ℚ) / 1000
              contract_type := ct } := by
  simp only [OptionData.parse_osi, hc, hy, hmo, hd, hp, hct]

/-- When the matcher rejects the input the parser reports the no-result
error. -/
theorem parse_osi_none {s : List Char} (hc : osiCaptures s = none) :
    OptionData.parse_osi s = .err .NoResult := by
  simp only [OptionData.parse_osi, hc]

/-! ### Helper lemmas: the ISIN checksum -/

theorem replace_chars_append (l1 l2 : List Char) :
    replace_chars_to_numbers (l1 ++ l2)
      = replace_chars_to_numbers l1 ++ replace_chars_to_numbers l2 := by
  simp [replace_chars_to_numbers]

theorem convert_digit {c : Char} (h : isDigitChar c = true) :
    convert_char_as_byte_to_numbers c = [digitVal c] := by
  rw [convert_char_as_byte_to_numbers, if_pos h]

theorem everyOther_cons {α : Type} (x : α) (l : List α) :
    everyOther (x :: l) = x :: everyOther l.tail := by
  cases l <;> rfl

theorem splitTens_sum (d : Nat) :
    (splitTens (d * 2)).sum = if 2 * d > 9 then 2 * d / 10 + 2 * d % 10 else 2 * d := by
  rw [splitTens, Nat.mul_comm d 2]
  split_ifs <;> simp

theorem specLuhn_split (l : List Nat) :
    specLuhnOdd l
        = (((everyOther l).map (fun f => f * 2)).map splitTens).flatten.sum
          + (everyOther l.tail).sum
      ∧ specLuhnEven l
        = (everyOther l).sum
          + (((everyOther l.tail).map (fun f => f * 2)).map splitTens).flatten.sum := by
  induction l with
  | nil => simp [specLuhnOdd, specLuhnEven, everyOther]
  | cons d rest ih =>
    constructor
    · rw [specLuhnOdd, everyOther_cons, List.map_cons, List.map_cons,
        List.flatten_cons, List.sum_append, List.tail_cons, splitTens_sum, ih.2]
      generalize (if 2 * d > 9 then 2 * d / 10 + 2 * d % 10 else 2 * d) = v
      generalize (everyOther rest).sum = p
      generalize (((everyOther rest.tail).map (fun f => f * 2)).map splitTens).flatten.sum = q
      omega
    · rw [specLuhnEven, everyOther_cons, List.sum_cons, List.tail_cons, ih.1]
      generalize (everyOther rest.tail).sum = p
      generalize (((everyOther rest).map (fun f => f * 2)).map splitTens).flatten.sum = q
      omega

theorem isinGrammar_parts {s : List Char} (h : isinGrammar s = true) :
    s.length = 12 ∧ (s.take 2).all isUpperChar = true
      ∧ ((s.drop 2).take 9).all (fun c => isUpperChar c || isDigitChar c) = true
      ∧ (s.drop 11).all isDigitChar = true := by
  rw [isinGrammar, Bool.and_eq_true, Bool.and_eq_true, Bool.and_eq_true] at h
  exact ⟨by simpa using h.1.1.1, h.1.1.2, h.1.2, h.2⟩

/-- The last character of a grammar-conforming string, with the split of
the string before it. -/
theorem isin_last_split {s : List Char} (h : isinGrammar s = true) :
    ∃ c : Char, s = s.take 11 ++ [c] ∧ s.drop 11 = [c] ∧ isDigitChar c = true := by
  obtain ⟨hlen, -, -, hdig⟩ := isinGrammar_parts h
  have h1 : (s.drop 11).length = 1 := by simp [hlen]
  obtain ⟨c, hc⟩ := List.length_eq_one.mp h1
  refine ⟨c, ?_, hc, ?_⟩
  · conv_lhs => rw [← List.take_append_drop 11 s]
    rw [hc]
  · rw [hc, List.all_cons] at hdig
    simpa using hdig

/-- The checksum the source computes over the full string equals the
specification algorithm run on the first eleven characters only. -/
theorem compute_checksum_eq_spec_take11 {s : List Char} (h : isinGrammar s = true) :
    compute_checksum s = specChecksumDigit (s.take 11) := by
  obtain ⟨c, hsplit, hdrop, hc⟩ := isin_last_split h
  have hdigits : replace_chars_to_numbers s
      = replace_chars_to_numbers (s.take 11) ++ [digitVal c] := by
    conv_lhs => rw [hsplit]
    rw [replace_chars_append]
    congr 1
    simp [replace_chars_to_numbers, convert_digit hc]
  rw [compute_checksum, specChecksumDigit, hdigits]
  have hrev : (replace_chars_to_numbers (s.take 11) ++ [digitVal c]).reverse
      = digitVal c :: (replace_chars_to_numbers (s.take 11)).reverse := by
    simp
  rw [sum_odd, sum_even, hrev]
  have hd1 : (digitVal c :: (replace_chars_to_numbers (s.take 11)).reverse).drop 1
      = (replace_chars_to_numbers (s.take 11)).reverse := by
    rw [List.drop_succ_cons, List.drop_zero]
  have hd2 : (digitVal c :: (replace_chars_to_numbers (s.take 11)).reverse).drop 2
      = (replace_chars_to_numbers (s.take 11)).reverse.tail := by
    rw [List.drop_succ_cons, List.drop_one]
  rw [hd1, hd2]
  have hs := specLuhn_split (replace_chars_to_numbers (s.take 11)).reverse
  rw [hs.1]
  omega

/-- Acceptance of the parser under the grammar: the last character must be
the decimal digit character of the computed checksum. -/
theorem parse_isin_accepts {s : List Char} (h : isinGrammar s = true) :
    ISIN.parse_isin s = .ok ⟨s⟩ ↔ s.drop 11 = [digitChar (compute_checksum s)] := by
  obtain ⟨c, hsplit, hdrop, -⟩ := isin_last_split h
  have hlast : s.getLast? = some c := by
    conv_lhs => rw [hsplit]
    exact List.getLast?_concat _
  rw [ISIN.parse_isin, if_pos h, verify_isin, hlast, hdrop]
  constructor
  · intro hv
    by_cases hb : (c == digitChar (compute_checksum s)) = true
    · rw [List.cons.injEq]
      exact ⟨eq_of_beq hb, rfl⟩
    · rw [if_neg hb] at hv
      exact absurd hv (by simp)
  · intro hl
    have : c = digitChar (compute_checksum s) := by
      simpa using hl
    rw [if_pos (by simp [this])]

/-! ### Claim C1 -/

/-- Claim C1, counterexample: on the grammar-conforming string
US0378331005 the program computes check digit 5 and accepts the string,
while the specification algorithm run over all twelve characters (the
rightmost digit at position 1 and doubled) yields 7, so the accepted
string's twelfth character is not the specification digit and the claim
as stated fails. -/
theorem C1_counterexample :
    isinGrammar (String.toList "US0378331005") = true ∧
    ISIN.parse_isin (String.toList "US0378331005")
      = .ok ⟨String.toList "US0378331005"⟩ ∧
    compute_checksum (String.toList "US0378331005") = 5 ∧
    specChecksumDigit (String.toList "US0378331005") = 7 ∧
    ¬ (String.toList "US0378331005").drop 11
        = [digitChar (specChecksumDigit (String.toList "US0378331005"))] := by
  decide

/-- Claim C1, amended: for every string matching the ISIN grammar, the
check digit the program computes equals the one obtained by the
specification algorithm applied to the expansion of the first eleven
characters only (equivalently, the full expansion with the rightmost
digit, the candidate check digit, skipped, so that positions 2, 4, 6 and
so on from the end are the doubled ones); and the parser accepts the
string exactly when this digit equals the twelfth character. -/
theorem C1_checksum_first11 (s : List Char) (h : isinGrammar s = true) :
    compute_checksum s = specChecksumDigit (s.take 11) ∧
    (ISIN.parse_isin s = .ok ⟨s⟩ ↔
      s.drop 11 = [digitChar (compute_checksum s)]) :=
  ⟨compute_checksum_eq_spec_take11 h, parse_isin_accepts h⟩

/-- Claim C1, witness: the amended statement instantiated at the Apple
ISIN. -/
theorem C1_checksum_first11_witness :
    compute_checksum (String.toList "US0378331005")
        = specChecksumDigit ((String.toList "US0378331005").take 11) ∧
    (ISIN.parse_isin (String.toList "US0378331005")
        = .ok ⟨String.toList "US0378331005"⟩ ↔
      (String.toList "US0378331005").drop 11
        = [digitChar (compute_checksum (String.toList "US0378331005"))]) :=
  C1_checksum_first11 (String.toList "US0378331005") (by decide)

/-! ### Claim C2 -/

/-- Claim C2: the parser validates the three known-good ISINs, rejects
with the checksum error the three checksum-zeroed and the three
transposed variants, and rejects the eleven-character input with the
no-match error rather than the checksum error. -/
theorem C2_parse_isin_examples :
    ISIN.parse_isin (String.toList "US0378331005")
      = .ok ⟨String.toList "US0378331005"⟩ ∧
    ISIN.parse_isin (String.toList "US5949181045")
      = .ok ⟨String.toList "US5949181045"⟩ ∧
    ISIN.parse_isin (String.toList "US38259P5089")
      = .ok ⟨String.toList "US38259P5089"⟩ ∧
    ISIN.parse_isin (String.toList "US5949181040") = .err .ChecksumError ∧
    ISIN.parse_isin (String.toList "US38259P5080") = .err .ChecksumError ∧
    ISIN.parse_isin (String.toList "US0378331000") = .err .ChecksumError ∧
    ISIN.parse_isin (String.toList "SU5941981045") = .err .ChecksumError ∧
    ISIN.parse_isin (String.toList "US3825P95089") = .err .ChecksumError ∧
    ISIN.parse_isin (String.toList "US0378313005") = .err .ChecksumError ∧
    ISIN.parse_isin (String.toList "US037833100") = .err .NoResult := by
  decide

/-! ### Claim C9 -/

/-- Claim C9: every ISIN value produced by a successful parse stores the
accepted string, which decomposes as the country code, the identifier and
the checksum accessor views of lengths two, nine and one (characters 0-1,
2-10 and 11), and the checksum character is the decimal digit of the
Luhn checksum of the first eleven characters. -/
theorem C9_accessor_views (s : List Char) (x : ISIN)
    (h : ISIN.parse_isin s = .ok x) :
    x.get_isin = s ∧
    x.get_county_code ++ (x.get_identifier ++ x.get_checksum) = x.get_isin ∧
    x.get_county_code.length = 2 ∧
    x.get_identifier.length = 9 ∧
    x.get_checksum.length = 1 ∧
    x.get_checksum = [digitChar (specChecksumDigit (x.get_isin.take 11))] := by
  have hg : isinGrammar s = true := by
    by_contra hg
    rw [ISIN.parse_isin, if_neg hg] at h
    exact absurd h (by simp)
  have hx : x = ⟨s⟩ := by
    rw [ISIN.parse_isin, if_pos hg] at h
    by_cases hv : verify_isin s = true
    · rw [if_pos hv] at h
      injection h with h'
      exact h'.symm
    · rw [if_neg hv] at h
      exact absurd h (by simp)
  subst hx
  obtain ⟨hlen, -, -, -⟩ := isinGrammar_parts hg
  refine ⟨rfl, ?_, ?_, ?_, ?_, ?_⟩
  · show s.take 2 ++ ((s.drop 2).take 9 ++ s.drop 11) = s
    rw [show s.drop 11 = (s.drop 2).drop 9 from by rw [List.drop_drop],
      List.take_append_drop, List.take_append_drop]
  · show (s.take 2).length = 2
    simp [List.length_take, hlen]
  · show ((s.drop 2).take 9).length = 9
    simp [List.length_take, List.length_drop, hlen]
  · show (s.drop 11).length = 1
    simp [List.length_drop, hlen]
  · show s.drop 11 = [digitChar (specChecksumDigit (s.take 11))]
    rw [← compute_checksum_eq_spec_take11 hg]
    exact (parse_isin_accepts hg).mp h

/-- Claim C9, witness: the accessor decomposition instantiated at the
parsed Apple ISIN. -/
theorem C9_accessor_views_witness :
    (ISIN.mk (String.toList "US0378331005")).get_county_code
      ++ ((ISIN.mk (String.toList "US0378331005")).get_identifier
        ++ (ISIN.mk (String.toList "US0378331005")).get_checksum)
      = (ISIN.mk (String.toList "US0378331005")).get_isin :=
  (C9_accessor_views (String.toList "US0378331005")
    ⟨String.toList "US0378331005"⟩ (by decide)).2.1

/-! ### Claim C7 -/

/-- Claim C7: a year is a leap year exactly when it is divisible by four
and not by one hundred, or divisible by four hundred; and for months one
to twelve a day fits exactly when it is at least one and at most
thirty-one for the seven long months, at most thirty for the four short
months, and for February at most twenty-eight or twenty-nine in a leap
year; with the five boundary instances of the claim. -/
theorem C7_calendar_predicates :
    (∀ y : Int, is_leap_year y = true ↔ ((4 ∣ y ∧ ¬ (100 ∣ y)) ∨ 400 ∣ y)) ∧
    (∀ y m d : Int, 1 ≤ m → m ≤ 12 →
      (is_day_in_month_and_year y m d = true ↔
        (1 ≤ d ∧
          ((m ∈ ([1, 3, 5, 7, 8, 10, 12] : List Int) ∧ d ≤ 31)
            ∨ (m ∈ ([4, 6, 9, 11] : List Int) ∧ d ≤ 30)
            ∨ (m = 2 ∧ (d ≤ 28 ∨ (d = 29 ∧ ((4 ∣ y ∧ ¬ (100 ∣ y)) ∨ 400 ∣ y)))))))) ∧
    is_day_in_month_and_year 2000 2 29 = true ∧
    is_day_in_month_and_year 2001 2 29 = false ∧
    is_day_in_month_and_year 2000 2 30 = false ∧
    is_day_in_month_and_year 2000 4 31 = false ∧
    is_day_in_month_and_year 2001 8 31 = true ∧
    is_leap_year 2000 = true ∧ is_leap_year 2100 = false ∧
    is_leap_year 2004 = true ∧ is_leap_year 2021 = false := by
  refine ⟨?_, ?_, by decide, by decide, by decide, by decide, by decide,
    by decide, by decide, by decide, by decide⟩
  · intro y
    simp only [is_leap_year, Bool.or_eq_true, Bool.and_eq_true, beq_iff_eq,
      Bool.not_eq_true', beq_eq_false_iff_ne, ne_eq]
    omega
  · intro y m d h1 h2
    simp only [is_day_in_month_and_year, is_leap_year, MONTH_WITH_31_DAYS,
      Bool.and_eq_true, Bool.or_eq_true, beq_iff_eq, Bool.not_eq_true',
      beq_eq_false_iff_ne, ne_eq, decide_eq_true_eq, List.elem_iff,
      List.mem_cons, List.mem_singleton, List.not_mem_nil, or_false]
    omega

/-- Claim C7, witness: the day predicate instantiated at the leap day of
2024. -/
theorem C7_calendar_predicates_witness :
    is_day_in_month_and_year 2024 2 29 = true :=
  (C7_calendar_predicates.2.1 2024 2 29 (by norm_num) (by norm_num)).mpr
    ⟨by norm_num,
      Or.inr (Or.inr ⟨rfl, Or.inr ⟨rfl, Or.inl ⟨by norm_num, by norm_num⟩⟩⟩)⟩

/-! ### Claim C10 -/

/-- Claim C10: the year guard of the validating setter applies bitwise
integer negation, so it rejects with the year error exactly the years at
most minus 2002; every other year (zero and 1999 included) reaches the
month check, which rejects months outside one to twelve, then the day
check, which rejects calendar-invalid days, and otherwise the call
succeeds. -/
theorem C10_set_ymd_guards :
    ∀ y m d : Int,
      ((OptionData.set_ymd y m d = .err .YearOutOfRange) ↔ y ≤ -2002) ∧
      (-2001 ≤ y →
        (((OptionData.set_ymd y m d = .err .MonthOutOfRange) ↔ ¬ (1 ≤ m ∧ m ≤ 12)) ∧
         (1 ≤ m → m ≤ 12 →
           (((OptionData.set_ymd y m d = .err .DayOutOfRange) ↔
              is_day_in_month_and_year y m d = false) ∧
            (is_day_in_month_and_year y m d = true →
              OptionData.set_ymd y m d = .ok ()))))) := by
  intro y m d
  rw [OptionData.set_ymd]
  split_ifs with h1 h2 h3
  · refine ⟨by simp; omega, fun hy => absurd h1 (by omega)⟩
  · simp only [Bool.not_eq_true', Bool.and_eq_false_iff, decide_eq_false_iff_not,
      not_le, ge_iff_le] at h2
    refine ⟨by simp; omega, fun hy => ⟨by simp; omega, fun hm1 hm2 => absurd h2 (by omega)⟩⟩
  · simp only [Bool.not_eq_true'] at h3
    refine ⟨by simp; omega, fun hy => ⟨?_, fun hm1 hm2 => ⟨by simp [h3], fun hd => absurd hd (by simp [h3])⟩⟩⟩
    simp only [Bool.not_eq_true', Bool.and_eq_false_iff, decide_eq_false_iff_not,
      not_le, ge_iff_le] at h2
    constructor
    · intro hcon
      exact absurd hcon (by simp)
    · intro hcon
      exact absurd h2 (by omega)
  · simp only [Bool.not_eq_true'] at h2 h3
    simp only [Bool.not_eq_false] at h3
    refine ⟨by simp; omega, fun hy => ⟨?_, fun hm1 hm2 => ⟨by simp [h3], fun _ => rfl⟩⟩⟩
    constructor
    · intro hcon
      exact absurd hcon (by simp)
    · intro hcon
      simp only [Bool.and_eq_false_iff, decide_eq_false_iff_not, not_le] at h2
      omega

/-- Claim C10, witness: year zero with a valid month and day succeeds. -/
theorem C10_set_ymd_guards_witness : OptionData.set_ymd 0 1 1 = .ok () :=
  (((C10_set_ymd_guards 0 1 1).2 (by norm_num)).2 (by norm_num) (by norm_num)).2
    (by decide)

/-! ### Helper lemmas: the OSI matcher -/

theorem isMonthField_shape {M : List Char} (h : isMonthField M = true) :
    M.length = 2 ∧ M ≠ [] ∧ M.all isDigitChar = true := by
  match M with
  | [] => exact absurd h (by simp [isMonthField])
  | [a] => exact absurd h (by simp [isMonthField])
  | a :: b :: c :: t => exact absurd h (by simp [isMonthField])
  | [a, b] =>
    refine ⟨rfl, by simp, ?_⟩
    simp only [isMonthField, Bool.or_eq_true, Bool.and_eq_true, beq_iff_eq] at h
    rcases h with ⟨ha, hb⟩ | ⟨ha, (hb | hb) | hb⟩ <;> subst ha
    · simp only [List.all_cons, List.all_nil, Bool.and_true, hb]
      decide
    all_goals subst hb; decide

theorem isDayField_shape {D : List Char} (h : isDayField D = true) :
    D.length = 2 ∧ D ≠ [] ∧ D.all isDigitChar = true := by
  match D with
  | [] => exact absurd h (by simp [isDayField])
  | [a] => exact absurd h (by simp [isDayField])
  | a :: b :: c :: t => exact absurd h (by simp [isDayField])
  | [a, b] =>
    refine ⟨rfl, by simp, ?_⟩
    simp only [isDayField, Bool.or_eq_true, Bool.and_eq_true, beq_iff_eq,
      decide_eq_true_eq] at h
    rcases h with (⟨ha, hb1, hb2⟩ | ⟨ha | ha, hb⟩) | ⟨ha, hb | hb⟩ <;> subst ha
    · have hb0 : ('0' : Char) ≤ b := le_trans (by decide) hb1
      simp only [List.all_cons, List.all_nil, Bool.and_true, isDigitChar]
      simp [hb0, hb2]
    · simp only [List.all_cons, List.all_nil, Bool.and_true, hb]
      decide
    · simp only [List.all_cons, List.all_nil, Bool.and_true, hb]
      decide
    all_goals subst hb; decide

theorem contractOfChar_of_isContract {k : Char} (h : isContractChar k = true) :
    contractOfChar k
      = some (if k == 'P' || k == 'p' then ContractType.Put else ContractType.Call) := by
  simp only [isContractChar, Bool.or_eq_true, beq_iff_eq] at h
  rcases h with ((h | h) | h) | h <;> subst h <;> decide

/-- The fields captured by a successful backtracking attempt satisfy the
character-class guards of the pattern. -/
theorem osiAttempt_some {a : Nat} {s : List Char} {c : OsiCaptures}
    (h : osiAttempt a s = some c) :
    c.year.length = 2 ∧ c.year.all isDigitChar = true ∧
    isMonthField c.month = true ∧ isDayField c.day = true ∧
    isContractChar c.contract = true ∧
    c.price.length = 8 ∧ c.price.all isDigitChar = true := by
  simp only [osiAttempt] at h
  split_ifs at h with hlen
  · have htl : (s.drop (s.length - 15)).length = 15 := by
      rw [List.length_drop]
      omega
    split at h
    · split_ifs at h with hcond
      · simp only [Bool.and_eq_true] at hcond
        obtain ⟨⟨⟨⟨⟨⟨-, -⟩, hy⟩, hm⟩, hd⟩, hk⟩, hp⟩ := hcond
        injection h with h
        subst h
        refine ⟨?_, hy, hm, hd, hk, ?_, hp⟩
        · rw [List.length_take, htl]
          omega
        · rw [List.length_drop, htl]
    · exact absurd h (by simp)

/-- A successful match comes from a successful attempt. -/
theorem osiTry_some :
    ∀ (k : Nat) {s : List Char} {c : OsiCaptures}, osiTry k s = some c →
      ∃ a, osiAttempt a s = some c := by
  intro k
  induction k with
  | zero => intro s c h; exact absurd h (by simp [osiTry])
  | succ k ih =>
    intro s c h
    rw [osiTry] at h
    split at h
    next c2 heq =>
      injection h with h
      subst h
      exact ⟨k + 1, heq⟩
    next heq =>
      exact ih h

theorem osiCaptures_some {s : List Char} {c : OsiCaptures}
    (h : osiCaptures s = some c) : ∃ a, osiAttempt a s = some c := by
  rw [osiCaptures] at h
  split_ifs at h with hc
  exact osiTry_some 6 h

/-- The greedy loop returns the unique successful attempt when all longer
attempts fail. -/
theorem osiTry_eq_of {s : List Char} {caps : OsiCaptures} {a : Nat} :
    ∀ k : Nat, 1 ≤ a → a ≤ k →
      (∀ j, a < j → j ≤ k → osiAttempt j s = none) →
      osiAttempt a s = some caps →
      osiTry k s = some caps := by
  intro k
  induction k with
  | zero => omega
  | succ k ih =>
    intro h1 h2 hfail hsucc
    by_cases hk : a = k + 1
    · subst hk
      rw [osiTry, hsucc]
    · have hnone : osiAttempt (k + 1) s = none := hfail (k + 1) (by omega) (le_refl _)
      rw [osiTry, hnone]
      exact ih h1 (by omega) (fun j hj1 hj2 => hfail j hj1 (by omega)) hsucc

theorem isWordChar_not_newline {c : Char} (h : isWordChar c = true) :
    (!(c == '\n')) = true := by
  by_cases hc : c = '\n'
  · subst hc
    exact absurd h (by decide)
  · simp [hc]

theorem isDigitChar_not_newline {c : Char} (h : isDigitChar c = true) :
    (!(c == '\n')) = true := by
  by_cases hc : c = '\n'
  · subst hc
    exact absurd h (by decide)
  · simp [hc]

theorem all_replicate_space_word_false {m : Nat} (h : 1 ≤ m) :
    (List.replicate m ' ').all isWordChar = false := by
  match m, h with
  | t + 1, _ =>
    rw [List.replicate_succ, List.all_cons,
      show isWordChar ' ' = false from by decide, Bool.false_and]

/-- On a string of the canonical serialized shape, every attempt with a
symbol width beyond the true symbol fails on the padding space. -/
theorem osiAttempt_longer_none
    (sym rest : List Char) (j : Nat)
    (hlen : (sym ++ (List.replicate (6 - sym.length) ' ' ++ rest)).length = 21)
    (hj1 : sym.length < j) (hj6 : j ≤ 6) :
    osiAttempt j (sym ++ (List.replicate (6 - sym.length) ' ' ++ rest)) = none := by
  have ha6 : sym.length ≤ 6 := by omega
  simp only [osiAttempt]
  rw [if_pos (by rw [hlen]; omega)]
  have htake : (sym ++ (List.replicate (6 - sym.length) ' ' ++ rest)).take j
      = sym ++ List.replicate (j - sym.length) ' ' := by
    rw [List.take_append_eq_append_take, List.take_of_length_le (by omega),
      List.take_append_eq_append_take, List.take_replicate, List.length_replicate]
    have h1 : min (j - sym.length) (6 - sym.length) = j - sym.length := by omega
    have h2 : j - sym.length - (6 - sym.length) = 0 := by omega
    rw [h1, h2, List.take_zero, List.append_nil]
  have hfalse : ((sym ++ (List.replicate (6 - sym.length) ' ' ++ rest)).take j).all
      isWordChar = false := by
    rw [htake, List.all_append, all_replicate_space_word_false (by omega),
      Bool.and_false]
  split
  · apply if_neg
    simp only [Bool.and_eq_true]
    intro hcon
    have := hcon.1.1.1.1.1.1
    rw [hfalse] at this
    exact absurd this (by simp)
  · rfl

/-- Dropping past a left factor of known length. -/
theorem drop_shift {l r : List Char} {n m : Nat} (h : l.length = m) (hge : m ≤ n) :
    (l ++ r).drop n = r.drop (n - m) := by
  rw [List.drop_append_eq_append_drop, h,
    List.drop_eq_nil_of_le (by omega), List.nil_append]

/-- The matcher on a string of the canonical serialized shape: the symbol
followed by its space padding to width six and the fifteen-character tail
is captured field by field. -/
theorem osiCaptures_build
    (sym Y M D P : List Char) (k : Char)
    (ha1 : 1 ≤ sym.length) (ha6 : sym.length ≤ 6)
    (hw : sym.all isWordChar = true)
    (hY2 : Y.length = 2) (hYd : Y.all isDigitChar = true)
    (hM : isMonthField M = true) (hD : isDayField D = true)
    (hK : isContractChar k = true)
    (hP8 : P.length = 8) (hPd : P.all isDigitChar = true) :
    osiCaptures
        (sym ++ (List.replicate (6 - sym.length) ' ' ++ (Y ++ (M ++ (D ++ k :: P)))))
      = some ⟨sym, Y, M, D, k, P⟩ := by
  obtain ⟨hM2, -, hMd⟩ := isMonthField_shape hM
  obtain ⟨hD2, -, hDd⟩ := isDayField_shape hD
  set s := sym ++ (List.replicate (6 - sym.length) ' '
    ++ (Y ++ (M ++ (D ++ k :: P)))) with hs
  have hlen : s.length = 21 := by
    rw [hs]
    simp only [List.length_append, List.length_replicate, List.length_cons,
      hY2, hM2, hD2, hP8]
    omega
  have hknl : (!(k == '\n')) = true := by
    by_cases hc : k = '\n'
    · subst hc
      exact absurd hK (by decide)
    · simp [hc]
  have hnl : s.all (fun c => !(c == '\n')) = true := by
    rw [hs]
    simp only [List.all_append, List.all_cons, Bool.and_eq_true]
    exact ⟨all_mono (fun c hc => isWordChar_not_newline hc) hw,
      all_replicate_of _ ' ' _ (by decide),
      all_mono (fun c hc => isDigitChar_not_newline hc) hYd,
      all_mono (fun c hc => isDigitChar_not_newline hc) hMd,
      all_mono (fun c hc => isDigitChar_not_newline hc) hDd,
      hknl,
      all_mono (fun c hc => isDigitChar_not_newline hc) hPd⟩
  rw [osiCaptures, if_pos ⟨⟨by rw [hlen]; omega, by rw [hlen]⟩, hnl⟩]
  have hsp : (List.replicate (6 - sym.length) ' ').all isSpaceChar = true :=
    all_replicate_of _ ' ' _ (by decide)
  have hpre : s = (sym ++ List.replicate (6 - sym.length) ' ')
      ++ (Y ++ (M ++ (D ++ k :: P))) := by
    rw [hs, List.append_assoc]
  have hpre6 : (sym ++ List.replicate (6 - sym.length) ' ').length = 6 := by
    simp only [List.length_append, List.length_replicate]
    omega
  have e_tl : s.drop 6 = Y ++ (M ++ (D ++ k :: P)) := by
    rw [hpre]
    exact List.drop_left' hpre6
  have t2 : (Y ++ (M ++ (D ++ k :: P))).drop 2 = M ++ (D ++ k :: P) :=
    List.drop_left' hY2
  have t4 : (Y ++ (M ++ (D ++ k :: P))).drop 4 = D ++ k :: P := by
    rw [drop_shift hY2 (by omega)]
    norm_num
    rw [List.drop_left' hM2]
  have t6 : (Y ++ (M ++ (D ++ k :: P))).drop 6 = k :: P := by
    rw [drop_shift hY2 (by omega)]
    norm_num
    rw [drop_shift hM2 (by omega)]
    norm_num
    rw [List.drop_left' hD2]
  have t7 : (Y ++ (M ++ (D ++ k :: P))).drop 7 = P := by
    rw [drop_shift hY2 (by omega)]
    norm_num
    rw [drop_shift hM2 (by omega)]
    norm_num
    rw [drop_shift hD2 (by omega)]
    norm_num
  refine osiTry_eq_of 6 ha1 ha6 ?_ ?_
  · intro j hj1 hj2
    rw [hs]
    exact osiAttempt_longer_none sym _ j (by rw [← hs, hlen]) hj1 hj2
  · simp only [osiAttempt]
    rw [if_pos (by rw [hlen]; omega)]
    have hd1 : s.length - 15 = 6 := by omega
    rw [hd1, e_tl]
    have e_take_a : s.take sym.length = sym := by
      rw [hs]
      exact List.take_left' rfl
    have e_drop_a : s.drop sym.length
        = List.replicate (6 - sym.length) ' ' ++ (Y ++ (M ++ (D ++ k :: P))) := by
      rw [hs]
      exact List.drop_left' rfl
    have e_sp : (s.drop sym.length).take (6 - sym.length)
        = List.replicate (6 - sym.length) ' ' := by
      rw [e_drop_a]
      exact List.take_left' (List.length_replicate _ _)
    rw [e_take_a, e_sp, List.take_left' hY2, t2, List.take_left' hM2, t4,
      List.take_left' hD2, t6, t7]
    simp only [List.take_succ_cons, List.take_zero]
    simp [hw, hsp, hYd, hM, hD, hK, hPd]

/-! ### Claim C4 -/

/-- Claim C4 is violated by the code: on an input matching the
activity-statement grammar whose three-letter month field is not one of
the twelve uppercase abbreviations, the source unwraps the failed month
lookup and panics instead of returning a parse error; the grammar match
succeeds on the failing input and the parse result is the panic outcome,
not an error. -/
theorem C4_unknown_month_panics :
    (ibCaptures (String.toList "AAPL 01XYZ13 470.0 C")).isSome = true ∧
    (∀ c : IbCaptures, ibCaptures (String.toList "AAPL 01XYZ13 470.0 C") = some c →
        c.month = String.toList "XYZ" ∧ month3FromStr c.month = none) ∧
    OptionData.parse_ib_activity_statement_trades_symbol
        (String.toList "AAPL 01XYZ13 470.0 C") = .panic ∧
    ∀ e : Error, OptionData.parse_ib_activity_statement_trades_symbol
        (String.toList "AAPL 01XYZ13 470.0 C") ≠ .err e := by
  refine ⟨by decide, by decide, by decide, ?_⟩
  intro e
  rw [show OptionData.parse_ib_activity_statement_trades_symbol
      (String.toList "AAPL 01XYZ13 470.0 C") = .panic from by decide]
  simp

/-! ### Claim C5 -/

/-- Claim C5: the four OSI strings with varying padding and a lowercase
contract letter all parse to the same option value: symbol AAPL, year
2013, month 11, day 1, strike 470 (the eight-digit integer divided by one
thousand), contract type Call. -/
theorem C5_osi_parse_examples :
    OptionData.parse_osi (String.toList "AAPL  131101C00470000")
      = .ok appleCall470 ∧
    OptionData.parse_osi (String.toList "AAPL 131101C00470000")
      = .ok appleCall470 ∧
    OptionData.parse_osi (String.toList "AAPL131101C00470000")
      = .ok appleCall470 ∧
    OptionData.parse_osi (String.toList "AAPL  131101c00470000")
      = .ok appleCall470 ∧
    appleCall470.strike_price = (47000000 : ℚ) / 100000 := by
  have hrec : OptionData.mk (String.toList "AAPL") (2000 + ((13 : Nat) : Int))
      ((11 : Nat) : Int) ((1 : Nat) : Int) (((470000 : Nat) : ℚ) / 1000)
      ContractType.Call = appleCall470 := by
    rw [appleCall470]
    norm_num
  refine ⟨?_, ?_, ?_, ?_, by norm_num [appleCall470]⟩
  · exact (@parse_osi_eval (String.toList "AAPL  131101C00470000")
      ⟨String.toList "AAPL", String.toList "13", String.toList "11",
        String.toList "01", 'C', String.toList "00470000"⟩
      13 11 1 470000 ContractType.Call (by decide) (by decide) (by decide)
      (by decide) (by decide) (by decide)).trans (congrArg RunResult.ok hrec)
  · exact (@parse_osi_eval (String.toList "AAPL 131101C00470000")
      ⟨String.toList "AAPL", String.toList "13", String.toList "11",
        String.toList "01", 'C', String.toList "00470000"⟩
      13 11 1 470000 ContractType.Call (by decide) (by decide) (by decide)
      (by decide) (by decide) (by decide)).trans (congrArg RunResult.ok hrec)
  · exact (@parse_osi_eval (String.toList "AAPL131101C00470000")
      ⟨String.toList "AAPL", String.toList "13", String.toList "11",
        String.toList "01", 'C', String.toList "00470000"⟩
      13 11 1 470000 ContractType.Call (by decide) (by decide) (by decide)
      (by decide) (by decide) (by decide)).trans (congrArg RunResult.ok hrec)
  · exact (@parse_osi_eval (String.toList "AAPL  131101c00470000")
      ⟨String.toList "AAPL", String.toList "13", String.toList "11",
        String.toList "01", 'c', String.toList "00470000"⟩
      13 11 1 470000 ContractType.Call (by decide) (by decide) (by decide)
      (by decide) (by decide) (by decide)).trans (congrArg RunResult.ok hrec)

/-! ### Claim C8 -/

/-- Claim C8: the OSI parser fails with the no-result error exactly when
the grammar does not match; on every match it succeeds with the captured
fields as written (year two thousand plus the two-digit capture, price
the eight-digit capture over one thousand) with no calendar check, as the
April-31 instance shows. -/
theorem C8_parse_osi_no_calendar :
    (∀ s : List Char,
      (OptionData.parse_osi s = .err .NoResult ↔ osiCaptures s = none) ∧
      (∀ c : OsiCaptures, osiCaptures s = some c →
        OptionData.parse_osi s
          = .ok (OptionData.mk c.symbol (2000 + (natVal c.year : Int))
              (natVal c.month : Int) (natVal c.day : Int)
              ((natVal c.price : ℚ) / 1000)
              (if c.contract == 'P' || c.contract == 'p' then ContractType.Put
                else ContractType.Call)))) ∧
    OptionData.parse_osi (String.toList "AAPL  130431C00470000")
      = .ok (OptionData.mk (String.toList "AAPL") 2013 4 31 470
          ContractType.Call) ∧
    is_day_in_month_and_year 2013 4 31 = false := by
  have hbuild : ∀ (s : List Char) (c : OsiCaptures), osiCaptures s = some c →
      OptionData.parse_osi s
        = .ok (OptionData.mk c.symbol (2000 + (natVal c.year : Int))
            (natVal c.month : Int) (natVal c.day : Int)
            ((natVal c.price : ℚ) / 1000)
            (if c.contract == 'P' || c.contract == 'p' then ContractType.Put
              else ContractType.Call)) := by
    intro s c hc
    obtain ⟨a, ha⟩ := osiCaptures_some hc
    obtain ⟨hy2, hyd, hm, hd, hk, hp8, hpd⟩ := osiAttempt_some ha
    obtain ⟨-, hmne, hmd⟩ := isMonthField_shape hm
    obtain ⟨-, hdne, hdd⟩ := isDayField_shape hd
    have hyne : c.year ≠ [] := by
      intro hcon
      rw [hcon] at hy2
      simp at hy2
    have hpne : c.price ≠ [] := by
      intro hcon
      rw [hcon] at hp8
      simp at hp8
    exact @parse_osi_eval s c (natVal c.year) (natVal c.month) (natVal c.day)
      (natVal c.price) _ hc (parseNat_of_digits hyne hyd)
      (parseNat_of_digits hmne hmd) (parseNat_of_digits hdne hdd)
      (parseNat_of_digits hpne hpd) (contractOfChar_of_isContract hk)
  refine ⟨fun s => ⟨?_, hbuild s⟩, ?_, by decide⟩
  · constructor
    · intro h
      cases hc : osiCaptures s with
      | none => rfl
      | some c =>
        rw [hbuild s c hc] at h
        exact absurd h (by simp)
    · intro h
      rw [OptionData.parse_osi, h]
  · have heval := @parse_osi_eval (String.toList "AAPL  130431C00470000")
      ⟨String.toList "AAPL", String.toList "13", String.toList "04",
        String.toList "31", 'C', String.toList "00470000"⟩
      13 4 31 470000 ContractType.Call (by decide) (by decide) (by decide)
      (by decide) (by decide) (by decide)
    refine heval.trans (congrArg RunResult.ok ?_)
    norm_num

/-- Claim C8, witness: the empty string does not match the grammar and
the parser reports the no-result error on it. -/
theorem C8_parse_osi_no_calendar_witness :
    OptionData.parse_osi [] = .err .NoResult :=
  (C8_parse_osi_no_calendar.1 []).1.mpr (by decide)

/-! ### Claim C3 -/

/-- Claim C3, counterexample: the option with the nominal strike 1.001
(the stored double is the binary64 value nearest to 1001 thousandths) has
valid fields with a strike of at most eight digits of thousandths, yet
the round trip fails: the serializer multiplies the stored strike by one
thousand in f64, which rounds to 1000.9999999999999, the price field is
printed with a decimal point, the output does not match the OSI grammar,
and the parser returns the no-result error rather than the value. -/
theorem C3_counterexample :
    1 ≤ badStrikeCall.symbol.length ∧ badStrikeCall.symbol.length ≤ 6 ∧
    badStrikeCall.symbol.all isWordChar = true ∧
    2000 ≤ badStrikeCall.expiration_year ∧ badStrikeCall.expiration_year ≤ 2099 ∧
    1 ≤ badStrikeCall.expiration_month ∧ badStrikeCall.expiration_month ≤ 12 ∧
    1 ≤ badStrikeCall.expiration_day ∧ badStrikeCall.expiration_day ≤ 31 ∧
    badStrikeCall.strike_price = fl64 ((1001 : ℚ) / 1000) ∧
    (1001 : Nat) < 100000000 ∧
    OptionData.parse_osi badStrikeCall.to_osi_string = .err .NoResult ∧
    ¬ OptionData.parse_osi badStrikeCall.to_osi_string = .ok badStrikeCall := by
  have hlogV : Int.log 2 ((1001 : ℚ) / 1000) = 0 :=
    int_log2_eq (by norm_num) (by norm_num) (by norm_num)
  have hV : fl64 ((1001 : ℚ) / 1000) = (4508103226997866 : ℚ) * 2 ^ (-52 : Int) := by
    rw [fl64_pos_eval (by norm_num), hlogV,
      show (52 : Int) - 0 = 52 from by ring, show (0 : Int) - 52 = -52 from by ring,
      roundHalfEven,
      show ⌊(1001 : ℚ) / 1000 * 2 ^ (52 : Int)⌋ = 4508103226997866 from by norm_num,
      if_pos (by norm_num)]
    norm_num
  have hlogP : Int.log 2 ((4508103226997866 : ℚ) * 2 ^ (-52 : Int) * 1000) = 9 :=
    int_log2_eq (by norm_num) (by norm_num) (by norm_num)
  have hP : fl64 ((4508103226997866 : ℚ) * 2 ^ (-52 : Int) * 1000)
      = (8804889115230207 : ℚ) * 2 ^ (-43 : Int) := by
    rw [fl64_pos_eval (by norm_num), hlogP,
      show (52 : Int) - 9 = 43 from by ring, show (9 : Int) - 52 = -43 from by ring,
      roundHalfEven,
      show ⌊(4508103226997866 : ℚ) * 2 ^ (-52 : Int) * 1000 * 2 ^ (43 : Int)⌋
        = 8804889115230207 from by norm_num,
      if_pos (by norm_num)]
    norm_num
  have hPfloor : ⌊(8804889115230207 : ℚ) * 2 ^ (-43 : Int)⌋ = 1000 := by norm_num
  have hPden : ¬ ((8804889115230207 : ℚ) * 2 ^ (-43 : Int)).den = 1 := by
    intro hden
    have h2 := (Rat.den_eq_one_iff ((8804889115230207 : ℚ) * 2 ^ (-43 : Int))).mp hden
    rw [← h2, Int.floor_intCast] at hPfloor
    rw [hPfloor] at h2
    norm_num at h2
  have hdisp : displayFloat ((8804889115230207 : ℚ) * 2 ^ (-43 : Int))
      = natDecimal 1000 ++ '.' :: fracDigitsAux 64 (1 - (2 : ℚ) ^ (-43 : Int)) := by
    rw [displayFloat, if_neg hPden, if_neg (by norm_num), displayFloatPos, hPfloor,
      show ((1000 : Int)).toNat = 1000 from rfl,
      show (8804889115230207 : ℚ) * 2 ^ (-43 : Int) - ((1000 : Int) : ℚ)
        = 1 - (2 : ℚ) ^ (-43 : Int) from by push_cast; norm_num]
  have hfrac : 4 ≤ (fracDigitsAux 64 (1 - (2 : ℚ) ^ (-43 : Int))).length := by
    have e1 : (1 - (2 : ℚ) ^ (-43 : Int)) * 10
        - (⌊(1 - (2 : ℚ) ^ (-43 : Int)) * 10⌋ : ℚ)
        = 1 - 10 * (2 : ℚ) ^ (-43 : Int) := by
      rw [show ⌊(1 - (2 : ℚ) ^ (-43 : Int)) * 10⌋ = 9 from by norm_num]
      push_cast
      ring
    have e2 : (1 - 10 * (2 : ℚ) ^ (-43 : Int)) * 10
        - (⌊(1 - 10 * (2 : ℚ) ^ (-43 : Int)) * 10⌋ : ℚ)
        = 1 - 100 * (2 : ℚ) ^ (-43 : Int) := by
      rw [show ⌊(1 - 10 * (2 : ℚ) ^ (-43 : Int)) * 10⌋ = 9 from by norm_num]
      push_cast
      ring
    have e3 : (1 - 100 * (2 : ℚ) ^ (-43 : Int)) * 10
        - (⌊(1 - 100 * (2 : ℚ) ^ (-43 : Int)) * 10⌋ : ℚ)
        = 1 - 1000 * (2 : ℚ) ^ (-43 : Int) := by
      rw [show ⌊(1 - 100 * (2 : ℚ) ^ (-43 : Int)) * 10⌋ = 9 from by norm_num]
      push_cast
      ring
    rw [show (64 : Nat) = 63 + 1 from rfl,
      @fracDigitsAux_succ 63 _ (by norm_num), e1,
      show (63 : Nat) = 62 + 1 from rfl,
      @fracDigitsAux_succ 62 _ (by norm_num), e2,
      show (62 : Nat) = 61 + 1 from rfl,
      @fracDigitsAux_succ 61 _ (by norm_num), e3,
      show (61 : Nat) = 60 + 1 from rfl,
      @fracDigitsAux_succ 60 _ (by norm_num)]
    simp only [List.length_cons]
    omega
  have hosi : badStrikeCall.to_osi_string
      = padRight 6 ' ' (String.toList "AAPL")
        ++ padLeft 2 '0' (intDecimal (2013 - 2000))
        ++ padLeft 2 '0' (intDecimal 11)
        ++ padLeft 2 '0' (intDecimal 1)
        ++ [ContractType.Call.display]
        ++ padLeft 8 '0'
          (natDecimal 1000 ++ '.' :: fracDigitsAux 64 (1 - (2 : ℚ) ^ (-43 : Int))) := by
    rw [OptionData.to_osi_string]
    simp only [badStrikeCall]
    rw [hV, hP, hdisp]
  have hlen22 : 22 ≤ badStrikeCall.to_osi_string.length := by
    have l1 : (String.toList "AAPL").length = 4 := rfl
    have l2 : (intDecimal (2013 - 2000)).length = 2 := rfl
    have l3 : (intDecimal 11).length = 2 := rfl
    have l4 : (intDecimal 1).length = 1 := rfl
    have l5 : (natDecimal 1000).length = 4 := rfl
    rw [hosi]
    simp only [padRight, padLeft, List.length_append, List.length_replicate,
      List.length_cons, List.length_nil, l1, l2, l3, l4, l5]
    omega
  have hcap : osiCaptures badStrikeCall.to_osi_string = none := by
    rw [osiCaptures, if_neg]
    intro hcon
    exact absurd hcon.1.2 (by omega)
  have hparse : OptionData.parse_osi badStrikeCall.to_osi_string = .err .NoResult :=
    parse_osi_none hcap
  refine ⟨by decide, by decide, by decide, by decide, by decide, by decide, by decide,
    by decide, by decide, rfl, by norm_num, hparse, ?_⟩
  rw [hparse]
  simp

/-- Claim C3, amended: the round trip holds on the exactly representable
part of the quantized domain.  For every option value with valid fields
(a symbol of one to six word characters, a year between 2000 and 2099, a
month from one to twelve, a day from one to thirty-one) whose stored
strike is the double nearest to n thousandths with n below ten to the
eighth and n a multiple of 125 (so that n divided by one thousand is a
dyadic rational the double holds exactly), parsing the OSI serialization
returns the value unchanged, with the strike equality exact. -/
theorem C3_osi_round_trip (x : OptionData) (n : Nat)
    (hs1 : 1 ≤ x.symbol.length) (hs2 : x.symbol.length ≤ 6)
    (hw : x.symbol.all isWordChar = true)
    (hy1 : 2000 ≤ x.expiration_year) (hy2 : x.expiration_year ≤ 2099)
    (hm1 : 1 ≤ x.expiration_month) (hm2 : x.expiration_month ≤ 12)
    (hd1 : 1 ≤ x.expiration_day) (hd2 : x.expiration_day ≤ 31)
    (hp : x.strike_price = fl64 ((n : ℚ) / 1000)) (hn : n < 100000000)
    (h125 : 125 ∣ n) :
    OptionData.parse_osi x.to_osi_string = .ok x := by
  obtain ⟨sym, yr, mo, dy, pr, ct⟩ := x
  dsimp only at hs1 hs2 hw hy1 hy2 hm1 hm2 hd1 hd2 hp
  subst hp
  rw [fl64_thousandth n h125 hn]
  obtain ⟨yy, hyy⟩ : ∃ m : Nat, yr = 2000 + (m : Int) :=
    ⟨(yr - 2000).toNat, by omega⟩
  subst hyy
  obtain ⟨mm, hmm⟩ : ∃ m : Nat, mo = (m : Int) := ⟨mo.toNat, by omega⟩
  subst hmm
  obtain ⟨dd, hdd⟩ : ∃ m : Nat, dy = (m : Int) := ⟨dy.toNat, by omega⟩
  subst hdd
  have hyy99 : yy < 100 := by omega
  have hmm1 : 1 ≤ mm := by omega
  have hmm12 : mm ≤ 12 := by omega
  have hdd1 : 1 ≤ dd := by omega
  have hdd31 : dd ≤ 31 := by omega
  rw [OptionData.to_osi_string]
  dsimp only
  rw [show (2000 : Int) + (yy : Int) - 2000 = (yy : Int) from by ring,
    intDecimal_of_nonneg (by omega : (0 : Int) ≤ (yy : Int)),
    intDecimal_of_nonneg (by omega : (0 : Int) ≤ (mm : Int)),
    intDecimal_of_nonneg (by omega : (0 : Int) ≤ (dd : Int)),
    Int.toNat_natCast, Int.toNat_natCast, Int.toNat_natCast,
    div_mul_cancel₀ ((n : ℚ)) (by norm_num : (1000 : ℚ) ≠ 0),
    fl64_natCast n (by norm_num; omega),
    displayFloat_natCast, padRight]
  have hshape : sym ++ List.replicate (6 - sym.length) ' '
        ++ padLeft 2 '0' (natDecimal yy)
        ++ padLeft 2 '0' (natDecimal mm)
        ++ padLeft 2 '0' (natDecimal dd)
        ++ [ct.display] ++ padLeft 8 '0' (natDecimal n)
      = sym ++ (List.replicate (6 - sym.length) ' '
        ++ (padLeft 2 '0' (natDecimal yy)
          ++ (padLeft 2 '0' (natDecimal mm)
            ++ (padLeft 2 '0' (natDecimal dd)
              ++ ct.display :: padLeft 8 '0' (natDecimal n))))) := by
    simp [List.append_assoc]
  rw [hshape]
  have hY2 : (padLeft 2 '0' (natDecimal yy)).length = 2 :=
    padLeft_length (natDecimal_length_le 2 yy (by norm_num) (by omega))
  have hYd : (padLeft 2 '0' (natDecimal yy)).all isDigitChar = true :=
    padLeft_zero_all_digit (natDecimal_all_digit yy)
  have hMf : isMonthField (padLeft 2 '0' (natDecimal mm)) = true := by
    rw [pad2_natDecimal (by omega)]
    interval_cases mm <;> decide
  have hDf : isDayField (padLeft 2 '0' (natDecimal dd)) = true := by
    rw [pad2_natDecimal (by omega)]
    interval_cases dd <;> decide
  have hK : isContractChar ct.display = true := by
    cases ct <;> decide
  have hP8 : (padLeft 8 '0' (natDecimal n)).length = 8 :=
    padLeft_length (natDecimal_length_le 8 n (by norm_num) (by
      calc n < 100000000 := hn
      _ = 10 ^ 8 := by norm_num))
  have hPd : (padLeft 8 '0' (natDecimal n)).all isDigitChar = true :=
    padLeft_zero_all_digit (natDecimal_all_digit n)
  have hc := osiCaptures_build sym (padLeft 2 '0' (natDecimal yy))
    (padLeft 2 '0' (natDecimal mm)) (padLeft 2 '0' (natDecimal dd))
    (padLeft 8 '0' (natDecimal n)) ct.display
    hs1 hs2 hw hY2 hYd hMf hDf hK hP8 hPd
  have hct : contractOfChar ct.display = some ct := by
    cases ct <;> rfl
  exact @parse_osi_eval _ _ yy mm dd n ct hc
    (parseNat_padLeft_natDecimal 2 yy) (parseNat_padLeft_natDecimal 2 mm)
    (parseNat_padLeft_natDecimal 2 dd) (parseNat_padLeft_natDecimal 8 n) hct

/-- Claim C3, witness: the amended round trip instantiated at the Apple
call, whose strike in thousandths is 470000, a multiple of 125. -/
theorem C3_osi_round_trip_witness :
    OptionData.parse_osi appleCall470.to_osi_string = .ok appleCall470 :=
  C3_osi_round_trip appleCall470 470000 (by decide) (by decide) (by decide)
    (by norm_num [appleCall470]) (by norm_num [appleCall470])
    (by norm_num [appleCall470]) (by norm_num [appleCall470])
    (by norm_num [appleCall470]) (by norm_num [appleCall470])
    (by rw [fl64_thousandth 470000 (by norm_num) (by norm_num)]
        norm_num [appleCall470])
    (by norm_num) (by norm_num)

/-! ### Claim C6 -/

/-- Claim C6: the Apple call serializes to exactly the canonical OSI
string and to exactly the Schwab string of the claim; and in general the
Schwab serializer emits the symbol, the slash-separated date with the
month and the day zero-padded to two digits and the year to four, the
strike price with exactly two decimal places, and the contract letter,
separated by single spaces. -/
theorem C6_serializers :
    appleCall470.to_osi_string = String.toList "AAPL  131101C00470000" ∧
    appleCall470.to_schwab_string = String.toList "AAPL 11/01/2013 470.00 C" ∧
    ∀ x : OptionData,
      x.to_schwab_string
        = x.symbol
          ++ ' ' :: padLeft 2 '0' (intDecimal x.expiration_month)
          ++ '/' :: padLeft 2 '0' (intDecimal x.expiration_day)
          ++ '/' :: padLeft 4 '0' (intDecimal x.expiration_year)
          ++ ' ' :: fmtFixed2 x.strike_price
          ++ ' ' :: [x.contract_type.display] := by
  refine ⟨?_, ?_, fun x => rfl⟩
  · have hq : appleCall470.strike_price * 1000 = ((470000 : Nat) : ℚ) := by
      norm_num [appleCall470]
    rw [OptionData.to_osi_string, hq, fl64_natCast 470000 (by norm_num),
      displayFloat_natCast]
    decide
  · have hq : appleCall470.strike_price = ((470 : Nat) : ℚ) := by
      norm_num [appleCall470]
    rw [OptionData.to_schwab_string, hq, fmtFixed2_natCast]
    decide

end OptionSymbology
